import Mathlib

/-!
# Verification of the gcp-rider selection state machine and inventory fetcher

Shallow embedding of the Go sources of `gcp-rider`:

* `gcp/gcp.go` — the `Instance` record and `Client.FetchInstances`, which
  drains the aggregated-list iterator of the compute API, skipping scoped
  lists with a `nil` value or an empty instance slice, and normalizing each
  instance's possibly fully-qualified zone with `path.Base`.
* the TUI package (`Model`, `NewModel`, `Model.Update`) — a bubbletea model
  holding the fetched VM list, a cursor, a loading flag and an error, with
  an `Update` function dispatching on the incoming message.

Go `int` is embedded as `Int`; Go slice indexing `m.vms[m.cursor]`, which
panics out of bounds, is embedded as a partial operation (`Option`), so
`Model.Update` returns `none` exactly when the Go code would panic.
Pointer-typed protobuf fields (`*string`, `*InstancesScopedList`) are
embedded as `Option`, and a `nil` dereference again surfaces as `none`.
-/

namespace Gcp

/-- Embeds `gcp.Instance` from `gcp/gcp.go`: the essential information for a VM. -/
structure Instance where
  Name : String
  Zone : String
deriving DecidableEq, Repr

end Gcp

namespace Tui

/-- The commands (one-shot side effects) the `Update` function can return:
`tea.Quit`, `tea.ExecProcess` with the argv of the spawned command, or the
spinner's tick command.  `none` at the call sites stands for Go's `nil`. -/
inductive Cmd where
  | quit
  | execProcess (argv : List String)
  | spinnerTick
deriving DecidableEq, Repr

/-- The messages `Model.Update` dispatches on: `tea.KeyMsg` (identified by
its `msg.String()` value), `vmsMsg` (fetch succeeded), `errMsg` (fetch
failed, carrying the error message), and `spinner.TickMsg`. -/
inductive Msg where
  | key (s : String)
  | vms (l : List Gcp.Instance)
  | err (e : String)
  | tick
deriving DecidableEq, Repr

/-- The TUI `Model` struct.  The `gcpClient` dependency and the spinner's
internal animation state carry no selection-machine state and are elided;
`err : Option String` embeds the `error` field (`none` = Go `nil`). -/
structure Model where
  projectID : String
  vms : List Gcp.Instance
  cursor : Int
  loading : Bool
  err : Option String
deriving DecidableEq, Repr

/-- Embeds `NewModel`: Go zero values give `vms = nil`, `cursor = 0`, `err = nil`;
the constructor sets `loading: true` explicitly. -/
def NewModel (projectID : String) : Model :=
  { projectID := projectID
    vms := []
    cursor := 0
    loading := true
    err := none }

/-- Go slice indexing `l[i]` with an `int` index: defined iff
`0 ≤ i < len(l)`; out of range is a runtime panic, embedded as `none`. -/
def goIndex (l : List Gcp.Instance) (i : Int) : Option Gcp.Instance :=
  if 0 ≤ i then l[i.toNat]? else none

/-- The argv of `exec.Command("gcloud", "compute", "ssh", vm.Name,
"--zone", vm.Zone, "--project", m.projectID)` built on confirmation. -/
def sshArgv (vm : Gcp.Instance) (projectID : String) : List String :=
  ["gcloud", "compute", "ssh", vm.Name, "--zone", vm.Zone, "--project", projectID]

/-- Embeds `Model.Update` from the TUI package, message case by message case:

* `tea.KeyMsg` — switch on `msg.String()`: `"ctrl+c"`/`"q"` return
  `tea.Quit`; `"up"`/`"k"` decrement the cursor if it is positive;
  `"down"`/`"j"` increment it if below `len(m.vms)-1`; `"enter"` returns
  `(m, nil)` on an empty list, otherwise indexes `m.vms[m.cursor]` and
  returns `tea.ExecProcess` of the gcloud ssh command; any other key falls
  through to `return m, nil`.
* `vmsMsg` — stores the list and clears `loading`.
* `errMsg` — stores the error and clears `loading`.
* `spinner.TickMsg` — advances the spinner (elided) and returns its command.

The result is `none` exactly when the Go code panics (out-of-range index). -/
def Model.Update (m : Model) (msg : Msg) : Option (Model × Option Cmd) :=
  match msg with
  | .key s =>
      if s = "ctrl+c" ∨ s = "q" then
        some (m, some .quit)
      else if s = "up" ∨ s = "k" then
        some (if 0 < m.cursor then { m with cursor := m.cursor - 1 } else m, none)
      else if s = "down" ∨ s = "j" then
        some (if m.cursor < (m.vms.length : Int) - 1 then
                { m with cursor := m.cursor + 1 }
              else m, none)
      else if s = "enter" then
        if m.vms.length = 0 then
          some (m, none)
        else
          match goIndex m.vms m.cursor with
          | some vm => some (m, some (.execProcess (sshArgv vm m.projectID)))
          | none => none
      else
        some (m, none)
  | .vms l => some ({ m with vms := l, loading := false }, none)
  | .err e => some ({ m with err := some e, loading := false }, none)
  | .tick => some (m, some .spinnerTick)

/-- The `Ready` phase of the spec: the fetch has resolved successfully, so
`View` renders the selectable list (neither the error branch nor the
loading branch fires). -/
def Model.Ready (m : Model) : Prop :=
  m.loading = false ∧ m.err = none

instance (m : Model) : Decidable m.Ready := by
  unfold Model.Ready
  infer_instance

/-- State projection of `Update` for key messages, totalized: for the
navigation keys used below `Update` never fails, so the default branch is
unreachable there. -/
def stepKey (s : String) (m : Model) : Model :=
  match m.Update (.key s) with
  | some p => p.1
  | none => m

/-- States the program can reach.  `main` builds `NewModel client projectID`
and `Init` issues one `fetchVmsCmd`, so the bubbletea runtime delivers the
single fetch completion (`vmsMsg` or `errMsg`) at most once per run,
interleaved with arbitrarily many key and spinner-tick messages; the flag
records whether that completion has been delivered yet.  Steps go through
`Model.Update` and require it not to panic. -/
inductive Reach (pid : String) : Bool → Model → Prop where
  | init : Reach pid false (NewModel pid)
  | key (s : String) {f : Bool} {m : Model} {p : Model × Option Cmd} :
      Reach pid f m → m.Update (.key s) = some p → Reach pid f p.1
  | tick {f : Bool} {m : Model} {p : Model × Option Cmd} :
      Reach pid f m → m.Update .tick = some p → Reach pid f p.1
  | fetchOk (l : List Gcp.Instance) {m : Model} {p : Model × Option Cmd} :
      Reach pid false m → m.Update (.vms l) = some p → Reach pid true p.1
  | fetchErr (e : String) {m : Model} {p : Model × Option Cmd} :
      Reach pid false m → m.Update (.err e) = some p → Reach pid true p.1

/-- A state is reachable when some run of the program produces it. -/
def Reachable (pid : String) (m : Model) : Prop :=
  ∃ f, Reach pid f m

/-- The inductive invariant of the state machine, indexed by whether the
fetch completion has been delivered. -/
structure Inv (pid : String) (f : Bool) (m : Model) : Prop where
  projectID_eq : m.projectID = pid
  loading_eq : m.loading = !f
  pre_fetch : f = false → m.vms = [] ∧ m.err = none
  err_empty : m.err ≠ none → m.vms = [] ∧ m.cursor = 0
  cursor_nonneg : 0 ≤ m.cursor
  cursor_zero : m.vms = [] → m.cursor = 0
  cursor_lt : m.vms ≠ [] → m.cursor < (m.vms.length : Int)

lemma inv_init (pid : String) : Inv pid false (NewModel pid) := by
  constructor <;> simp [NewModel]

lemma inv_key {pid : String} {f : Bool} {m : Model} {p : Model × Option Cmd}
    (hi : Inv pid f m) (s : String) (hu : m.Update (.key s) = some p) :
    Inv pid f p.1 := by
  obtain ⟨h1, h2, h3, h4, h5, h6, h7⟩ := hi
  simp only [Model.Update] at hu
  split at hu
  · cases hu
    exact ⟨h1, h2, h3, h4, h5, h6, h7⟩
  · split at hu
    · cases hu
      by_cases hc : 0 < m.cursor
      · rw [if_pos hc]
        have hne : m.vms ≠ [] := fun h => by simp [h6 h] at hc
        refine ⟨h1, h2, ?_, ?_, ?_, ?_, ?_⟩
        · intro hf
          exact absurd (h6 (h3 hf).1) (by omega)
        · intro h
          exact absurd ((h4 h).2) (by omega)
        · show 0 ≤ m.cursor - 1
          omega
        · intro h
          exact absurd h hne
        · intro _
          have := h7 hne
          show m.cursor - 1 < (m.vms.length : Int)
          omega
      · rw [if_neg hc]
        exact ⟨h1, h2, h3, h4, h5, h6, h7⟩
    · split at hu
      · cases hu
        by_cases hc : m.cursor < (m.vms.length : Int) - 1
        · rw [if_pos hc]
          have hne : m.vms ≠ [] := by
            intro h
            rw [h] at hc
            simp at hc
            omega
          refine ⟨h1, h2, ?_, ?_, ?_, ?_, ?_⟩
          · intro hf
            exact absurd (h3 hf).1 hne
          · intro h
            exact absurd (h4 h).1 hne
          · show 0 ≤ m.cursor + 1
            omega
          · intro h
            exact absurd h hne
          · intro _
            show m.cursor + 1 < (m.vms.length : Int)
            omega
        · rw [if_neg hc]
          exact ⟨h1, h2, h3, h4, h5, h6, h7⟩
      · split at hu
        · split at hu
          · cases hu
            exact ⟨h1, h2, h3, h4, h5, h6, h7⟩
          · split at hu
            · cases hu
              exact ⟨h1, h2, h3, h4, h5, h6, h7⟩
            · cases hu
        · cases hu
          exact ⟨h1, h2, h3, h4, h5, h6, h7⟩

lemma inv_tick {pid : String} {f : Bool} {m : Model} {p : Model × Option Cmd}
    (hi : Inv pid f m) (hu : m.Update .tick = some p) : Inv pid f p.1 := by
  simp only [Model.Update] at hu
  cases hu
  exact hi

lemma inv_fetchOk {pid : String} {m : Model} {p : Model × Option Cmd}
    (hi : Inv pid false m) (l : List Gcp.Instance)
    (hu : m.Update (.vms l) = some p) : Inv pid true p.1 := by
  obtain ⟨h1, h2, h3, h4, h5, h6, h7⟩ := hi
  obtain ⟨hvms, herr⟩ := h3 rfl
  have hc : m.cursor = 0 := h6 hvms
  simp only [Model.Update] at hu
  cases hu
  refine ⟨h1, rfl, by simp, ?_, by simp [hc], fun _ => hc, ?_⟩
  · intro h
    exact absurd herr (by simpa using h)
  · intro h
    show m.cursor < (l.length : Int)
    have : 0 < l.length := List.length_pos.mpr h
    omega

lemma inv_fetchErr {pid : String} {m : Model} {p : Model × Option Cmd}
    (hi : Inv pid false m) (e : String)
    (hu : m.Update (.err e) = some p) : Inv pid true p.1 := by
  obtain ⟨h1, h2, h3, h4, h5, h6, h7⟩ := hi
  obtain ⟨hvms, herr⟩ := h3 rfl
  have hc : m.cursor = 0 := h6 hvms
  simp only [Model.Update] at hu
  cases hu
  exact ⟨h1, rfl, by simp, fun _ => ⟨hvms, hc⟩, by simp [hc], fun _ => hc,
    fun h => absurd hvms h⟩

/-- Every reachable state satisfies the invariant. -/
lemma reach_inv {pid : String} {f : Bool} {m : Model} (h : Reach pid f m) :
    Inv pid f m := by
  induction h with
  | init => exact inv_init pid
  | key s h hu ih => exact inv_key ih s hu
  | tick h hu ih => exact inv_tick ih hu
  | fetchOk l h hu ih => exact inv_fetchOk ih l hu
  | fetchErr e h hu ih => exact inv_fetchErr ih e hu

lemma goIndex_some {l : List Gcp.Instance} {i : Int} (h0 : 0 ≤ i)
    (hlt : i < (l.length : Int)) :
    ∃ hn : i.toNat < l.length, goIndex l i = some (l.get ⟨i.toNat, hn⟩) := by
  have hn : i.toNat < l.length := by omega
  refine ⟨hn, ?_⟩
  unfold goIndex
  rw [if_pos h0, List.getElem?_eq_getElem hn]
  simp [List.get_eq_getElem]

/-- Quit keys return the unchanged model with the quit command. -/
lemma update_key_quit (m : Model) (s : String) (hs : s = "ctrl+c" ∨ s = "q") :
    m.Update (.key s) = some (m, some .quit) := by
  simp only [Model.Update]
  rw [if_pos hs]

/-- With an empty VM list and cursor 0 every non-quit key is a no-op. -/
lemma update_key_noop_of_empty {m : Model} (hv : m.vms = []) (hc : m.cursor = 0)
    (s : String) (hq : s ≠ "q") (hcc : s ≠ "ctrl+c") :
    m.Update (.key s) = some (m, none) := by
  simp only [Model.Update]
  rw [if_neg (by simp [hq, hcc])]
  by_cases h2 : s = "up" ∨ s = "k"
  · rw [if_pos h2, if_neg (by omega)]
  · rw [if_neg h2]
    by_cases h3 : s = "down" ∨ s = "j"
    · rw [if_pos h3, if_neg (by rw [hv]; simp; omega)]
    · rw [if_neg h3]
      by_cases h4 : s = "enter"
      · rw [if_pos h4, if_pos (by simp [hv])]
      · rw [if_neg h4]

/-- On states satisfying the invariant, `Update` never panics. -/
lemma update_isSome {pid : String} {f : Bool} {m : Model} (hi : Inv pid f m)
    (msg : Msg) : m.Update msg ≠ none := by
  cases msg with
  | key s =>
      simp only [Model.Update]
      by_cases h1 : s = "ctrl+c" ∨ s = "q"
      · rw [if_pos h1]; simp
      · rw [if_neg h1]
        by_cases h2 : s = "up" ∨ s = "k"
        · rw [if_pos h2]; simp
        · rw [if_neg h2]
          by_cases h3 : s = "down" ∨ s = "j"
          · rw [if_pos h3]; simp
          · rw [if_neg h3]
            by_cases h4 : s = "enter"
            · rw [if_pos h4]
              by_cases h5 : m.vms.length = 0
              · rw [if_pos h5]; simp
              · rw [if_neg h5]
                have hne : m.vms ≠ [] := fun h => h5 (by simp [h])
                obtain ⟨hn, hg⟩ :=
                  goIndex_some hi.cursor_nonneg (hi.cursor_lt hne)
                rw [hg]
                simp
            · rw [if_neg h4]; simp
  | vms l => simp [Model.Update]
  | err e => simp [Model.Update]
  | tick => simp [Model.Update]

/-- Scenario A, after `FetchSucceeded` of the two-record inventory. -/
def scA1 : Model :=
  { projectID := "proj"
    vms := [⟨"vm-1", "us-central1-a"⟩, ⟨"vm-2", "europe-west1-b"⟩]
    cursor := 0
    loading := false
    err := none }

/-- Scenario A, after the subsequent `KeyDown`. -/
def scA2 : Model := { scA1 with cursor := 1 }

lemma scA1_reach : Reach "proj" true scA1 :=
  Reach.fetchOk [⟨"vm-1", "us-central1-a"⟩, ⟨"vm-2", "europe-west1-b"⟩]
    Reach.init rfl

lemma scA2_reach : Reach "proj" true scA2 :=
  Reach.key "down" scA1_reach
    (show scA1.Update (.key "down") = some (scA2, none) by decide)

/-- C2. In every reachable state, the cursor is `0` on an empty
inventory and within `[0, len)` on a non-empty one, and `Update` never
panics (in particular the `m.vms[m.cursor]` index on confirm is in
bounds). -/
theorem cursor_invariant (pid : String) (m : Model) (h : Reachable pid m) :
    (m.vms = [] → m.cursor = 0) ∧
    (m.vms ≠ [] → 0 ≤ m.cursor ∧ m.cursor < (m.vms.length : Int)) ∧
    (∀ msg, m.Update msg ≠ none) := by
  obtain ⟨f, hr⟩ := h
  have hi := reach_inv hr
  exact ⟨hi.cursor_zero, fun hne => ⟨hi.cursor_nonneg, hi.cursor_lt hne⟩,
    update_isSome hi⟩

/-- Witness for `cursor_invariant` at the Scenario A state. -/
theorem cursor_invariant_witness :
    (scA2.vms = [] → scA2.cursor = 0) ∧
    (scA2.vms ≠ [] → 0 ≤ scA2.cursor ∧ scA2.cursor < (scA2.vms.length : Int)) ∧
    (∀ msg, scA2.Update msg ≠ none) :=
  cursor_invariant "proj" scA2 ⟨true, scA2_reach⟩

/-- C1. In any reachable Ready state with a non-empty inventory,
`"enter"` emits exactly one `ExecProcess` (launch-session) command for the
record at the cursor and leaves the model unchanged. -/
theorem keyConfirm_launches (pid : String) (m : Model) (h : Reachable pid m)
    (_hready : m.Ready) (hne : m.vms ≠ []) :
    ∃ vm, goIndex m.vms m.cursor = some vm ∧
      m.Update (.key "enter") =
        some (m, some (.execProcess (sshArgv vm m.projectID))) := by
  obtain ⟨f, hr⟩ := h
  have hi := reach_inv hr
  obtain ⟨hn, hg⟩ := goIndex_some hi.cursor_nonneg (hi.cursor_lt hne)
  refine ⟨_, hg, ?_⟩
  simp only [Model.Update]
  rw [if_neg (by decide), if_neg (by decide), if_neg (by decide),
    if_pos (by trivial), if_neg (fun hh => hne (List.length_eq_zero.mp hh)),
    hg]

/-- Witness for `keyConfirm_launches`: Scenario A — after fetching two
records and one `KeyDown`, confirm launches `vm-2`. -/
theorem keyConfirm_launches_witness :
    (∃ vm, goIndex scA2.vms scA2.cursor = some vm ∧
      scA2.Update (.key "enter") =
        some (scA2, some (.execProcess (sshArgv vm scA2.projectID)))) ∧
    scA2.Update (.key "enter") =
      some (scA2, some (.execProcess ["gcloud", "compute", "ssh", "vm-2",
        "--zone", "europe-west1-b", "--project", "proj"])) :=
  ⟨keyConfirm_launches "proj" scA2 ⟨true, scA2_reach⟩ (by decide) (by decide),
    by decide⟩

/-- C3. Delivering `vmsMsg I` (`len I ≥ 1`) to any reachable
loading-phase state yields a Ready state with inventory `I` and cursor 0. -/
theorem fetchSucceeded_ready (pid : String) (m : Model) (h : Reachable pid m)
    (hl : m.loading = true) (I : List Gcp.Instance) (_hI : 1 ≤ I.length) :
    ∃ m', m.Update (.vms I) = some (m', none) ∧
      m'.loading = false ∧ m'.err = none ∧ m'.vms = I ∧ m'.cursor = 0 := by
  obtain ⟨f, hr⟩ := h
  have hi := reach_inv hr
  have hf : f = false := by
    cases f
    · rfl
    · rw [hi.loading_eq] at hl
      simp at hl
  obtain ⟨hvms, herr⟩ := hi.pre_fetch hf
  exact ⟨{ m with vms := I, loading := false }, rfl, rfl, herr, rfl,
    hi.cursor_zero hvms⟩

/-- Witness for `fetchSucceeded_ready` at the initial state. -/
theorem fetchSucceeded_ready_witness :
    ∃ m', (NewModel "proj").Update (.vms [⟨"vm-1", "us-central1-a"⟩]) =
        some (m', none) ∧
      m'.loading = false ∧ m'.err = none ∧
      m'.vms = [⟨"vm-1", "us-central1-a"⟩] ∧ m'.cursor = 0 :=
  fetchSucceeded_ready "proj" (NewModel "proj") ⟨false, Reach.init⟩ rfl
    [⟨"vm-1", "us-central1-a"⟩] (by decide)

/-- C4. Cursor movement is saturating: `KeyUp` (`"up"`/`"k"`) at cursor
0 and `KeyDown` (`"down"`/`"j"`) at the last index leave the state
unchanged (hence arbitrarily repeated presses do), and away from the
boundary they move the cursor by exactly one. -/
theorem cursor_saturating (pid : String) (m : Model) (_h : Reachable pid m)
    (_hready : m.Ready) :
    (∀ s, s = "up" ∨ s = "k" → m.cursor = 0 →
      m.Update (.key s) = some (m, none) ∧ ∀ n, (stepKey s)^[n] m = m) ∧
    (∀ s, s = "down" ∨ s = "j" → m.cursor = (m.vms.length : Int) - 1 →
      m.Update (.key s) = some (m, none) ∧ ∀ n, (stepKey s)^[n] m = m) ∧
    (∀ s, s = "up" ∨ s = "k" → 0 < m.cursor →
      m.Update (.key s) = some ({ m with cursor := m.cursor - 1 }, none)) ∧
    (∀ s, s = "down" ∨ s = "j" → m.cursor < (m.vms.length : Int) - 1 →
      m.Update (.key s) = some ({ m with cursor := m.cursor + 1 }, none)) := by
  refine ⟨?_, ?_, ?_, ?_⟩
  · intro s hs hc
    have hu : m.Update (.key s) = some (m, none) := by
      simp only [Model.Update]
      rw [if_neg (by rcases hs with rfl | rfl <;> decide), if_pos hs,
        if_neg (by omega)]
    exact ⟨hu, fun n => Function.iterate_fixed (by simp [stepKey, hu]) n⟩
  · intro s hs hc
    have hu : m.Update (.key s) = some (m, none) := by
      simp only [Model.Update]
      rw [if_neg (by rcases hs with rfl | rfl <;> decide),
        if_neg (by rcases hs with rfl | rfl <;> decide), if_pos hs,
        if_neg (by omega)]
    exact ⟨hu, fun n => Function.iterate_fixed (by simp [stepKey, hu]) n⟩
  · intro s hs hc
    simp only [Model.Update]
    rw [if_neg (by rcases hs with rfl | rfl <;> decide), if_pos hs,
      if_pos hc]
  · intro s hs hc
    simp only [Model.Update]
    rw [if_neg (by rcases hs with rfl | rfl <;> decide),
      if_neg (by rcases hs with rfl | rfl <;> decide), if_pos hs, if_pos hc]

/-- Witness for `cursor_saturating` at the Scenario A states. -/
theorem cursor_saturating_witness :
    (scA1.Update (.key "up") = some (scA1, none) ∧
      (stepKey "up")^[3] scA1 = scA1) ∧
    scA1.Update (.key "down") =
      some ({ scA1 with cursor := scA1.cursor + 1 }, none) ∧
    scA2.Update (.key "down") = some (scA2, none) := by
  have h1 := cursor_saturating "proj" scA1 ⟨true, scA1_reach⟩ (by decide)
  have h2 := cursor_saturating "proj" scA2 ⟨true, scA2_reach⟩ (by decide)
  exact ⟨⟨(h1.1 "up" (Or.inl rfl) rfl).1, (h1.1 "up" (Or.inl rfl) rfl).2 3⟩,
    h1.2.2.2 "down" (Or.inl rfl) (by decide),
    (h2.2.1 "down" (Or.inl rfl) (by decide)).1⟩

/-- C5. In a reachable Ready state with an empty inventory, confirm
emits no launch command and navigation keys are no-ops, all leaving the
state unchanged; with exactly one item, navigation still fixes the cursor
at 0 but confirm actively launches that item. -/
theorem empty_vs_single (pid : String) (m : Model) (h : Reachable pid m)
    (_hready : m.Ready) :
    (m.vms = [] →
      m.Update (.key "enter") = some (m, none) ∧
      ∀ s, s = "up" ∨ s = "k" ∨ s = "down" ∨ s = "j" →
        m.Update (.key s) = some (m, none)) ∧
    (∀ vm, m.vms = [vm] →
      (∀ s, s = "up" ∨ s = "k" ∨ s = "down" ∨ s = "j" →
        m.Update (.key s) = some (m, none)) ∧
      m.Update (.key "enter") =
        some (m, some (.execProcess (sshArgv vm m.projectID)))) := by
  obtain ⟨f, hr⟩ := h
  have hi := reach_inv hr
  constructor
  · intro hv
    have hc := hi.cursor_zero hv
    refine ⟨update_key_noop_of_empty hv hc "enter" (by decide) (by decide),
      fun s hs => ?_⟩
    rcases hs with rfl | rfl | rfl | rfl <;>
      exact update_key_noop_of_empty hv hc _ (by decide) (by decide)
  · intro vm hv
    have hlt := hi.cursor_lt (by simp [hv])
    rw [hv] at hlt
    have hc : m.cursor = 0 := by
      have h0 := hi.cursor_nonneg
      simp at hlt
      omega
    constructor
    · intro s hs
      simp only [Model.Update]
      rw [if_neg (by rcases hs with rfl | rfl | rfl | rfl <;> decide)]
      rcases hs with rfl | rfl | rfl | rfl
      · rw [if_pos (Or.inl rfl), if_neg (by omega)]
      · rw [if_pos (Or.inr rfl), if_neg (by omega)]
      · rw [if_neg (by decide), if_pos (Or.inl rfl),
          if_neg (by rw [hv]; simp; omega)]
      · rw [if_neg (by decide), if_pos (Or.inr rfl),
          if_neg (by rw [hv]; simp; omega)]
    · have hg : goIndex m.vms m.cursor = some vm := by
        rw [hv, hc]
        rfl
      simp only [Model.Update]
      rw [if_neg (by decide), if_neg (by decide), if_neg (by decide),
        if_pos (by trivial), if_neg (by simp [hv]), hg]

/-- Scenario C: the Ready state after fetching an empty inventory. -/
def scC0 : Model :=
  { projectID := "proj"
    vms := []
    cursor := 0
    loading := false
    err := none }

/-- The Ready state after fetching a one-record inventory. -/
def scC1 : Model :=
  { projectID := "proj"
    vms := [⟨"vm-1", "us-central1-a"⟩]
    cursor := 0
    loading := false
    err := none }

lemma scC0_reach : Reach "proj" true scC0 :=
  Reach.fetchOk [] Reach.init rfl

lemma scC1_reach : Reach "proj" true scC1 :=
  Reach.fetchOk [⟨"vm-1", "us-central1-a"⟩] Reach.init rfl

/-- Witness for `empty_vs_single`: the Ready states after fetching an
empty and a one-record inventory. -/
theorem empty_vs_single_witness :
    (scC0.Update (.key "enter") = some (scC0, none) ∧
      scC0.Update (.key "down") = some (scC0, none)) ∧
    (scC1.Update (.key "down") = some (scC1, none) ∧
      scC1.Update (.key "enter") =
        some (scC1, some (.execProcess ["gcloud", "compute", "ssh", "vm-1",
          "--zone", "us-central1-a", "--project", "proj"]))) := by
  have h0 := empty_vs_single "proj" scC0 ⟨true, scC0_reach⟩ (by decide)
  have h1 := empty_vs_single "proj" scC1 ⟨true, scC1_reach⟩ (by decide)
  exact ⟨⟨(h0.1 rfl).1, (h0.1 rfl).2 "down" (by decide)⟩,
    ⟨(h1.2 ⟨"vm-1", "us-central1-a"⟩ rfl).1 "down" (by decide),
      (h1.2 ⟨"vm-1", "us-central1-a"⟩ rfl).2⟩⟩

/-- C6. A fetch failure in the loading phase yields a Failed state
carrying the error; afterwards every non-quit key and the spinner tick
leave the state unchanged and emit no launch command, the quit keys still
emit `tea.Quit`, and `Update` never panics. -/
theorem fetchFailed_terminal (pid : String) (m : Model) (e : String)
    (h : Reachable pid m) (hl : m.loading = true) :
    ∃ m', m.Update (.err e) = some (m', none) ∧
      m'.err = some e ∧ m'.loading = false ∧
      (∀ s, s ≠ "q" → s ≠ "ctrl+c" →
        m'.Update (.key s) = some (m', none)) ∧
      (∀ s, s = "ctrl+c" ∨ s = "q" →
        m'.Update (.key s) = some (m', some .quit)) ∧
      m'.Update .tick = some (m', some .spinnerTick) ∧
      (∀ msg, m'.Update msg ≠ none) := by
  obtain ⟨f, hr⟩ := h
  have hf : f = false := by
    cases f
    · rfl
    · have h2 := (reach_inv hr).loading_eq
      rw [hl] at h2
      simp at h2
  subst hf
  have hu : m.Update (.err e) =
      some ({ m with err := some e, loading := false }, none) := rfl
  have hr' : Reach pid true { m with err := some e, loading := false } :=
    Reach.fetchErr e hr hu
  have hi' := reach_inv hr'
  have he : ({ m with err := some e, loading := false } : Model).err ≠ none :=
    by simp
  refine ⟨_, hu, rfl, rfl, ?_, ?_, rfl, update_isSome hi'⟩
  · intro s hq hcc
    exact update_key_noop_of_empty (hi'.err_empty he).1 (hi'.err_empty he).2
      s hq hcc
  · intro s hs
    exact update_key_quit _ s hs

/-- Witness for `fetchFailed_terminal`: Scenario B at the initial state. -/
theorem fetchFailed_terminal_witness :
    ∃ m', (NewModel "proj").Update (.err "internal server error") =
        some (m', none) ∧
      m'.err = some "internal server error" ∧ m'.loading = false ∧
      (∀ s, s ≠ "q" → s ≠ "ctrl+c" →
        m'.Update (.key s) = some (m', none)) ∧
      (∀ s, s = "ctrl+c" ∨ s = "q" →
        m'.Update (.key s) = some (m', some .quit)) ∧
      m'.Update .tick = some (m', some .spinnerTick) ∧
      (∀ msg, m'.Update msg ≠ none) :=
  fetchFailed_terminal "proj" (NewModel "proj") "internal server error"
    ⟨false, Reach.init⟩ rfl

/-- C9. The `vmsMsg` transition writes only the `vms` and `loading`
fields — the cursor (and every other field) keeps its old value for an
arbitrary pre-state, nonzero cursor included; separately, every reachable
loading-phase state already has cursor 0 (which is why the cursor is 0
after a real fetch success). -/
theorem vmsMsg_writes_only_vms_loading :
    (∀ (m : Model) (l : List Gcp.Instance),
      m.Update (.vms l) =
        some ({ projectID := m.projectID, vms := l, cursor := m.cursor, loading := false, err := m.err }, none)) ∧
    (∀ (pid : String) (m : Model), Reach pid false m →
      m.loading = true ∧ m.cursor = 0) := by
  constructor
  · intro m l
    rfl
  · intro pid m hr
    have hi := reach_inv hr
    exact ⟨by simpa using hi.loading_eq, hi.cursor_zero (hi.pre_fetch rfl).1⟩

/-- Witness for `vmsMsg_writes_only_vms_loading`: a pre-state with cursor 5
keeps cursor 5 across `vmsMsg`. -/
theorem vmsMsg_writes_only_vms_loading_witness :
    Model.Update
        { projectID := "p"
          vms := []
          cursor := 5
          loading := true
          err := none } (.vms [⟨"a", "z"⟩]) =
      some ({ projectID := "p"
              vms := [⟨"a", "z"⟩]
              cursor := 5
              loading := false
              err := none }, none) :=
  vmsMsg_writes_only_vms_loading.1 _ _

end Tui

namespace Gcp

/-- Go's `path.Base`: return `"."` for the empty path, strip trailing
slashes, return `"/"` if only slashes remain, otherwise the part after the
last slash. -/
def pathBase (p : String) : String :=
  if p = "" then "."
  else
    let r := p.toList.reverse.dropWhile (fun c => c == '/')
    if r = [] then "/"
    else String.mk (r.takeWhile (fun c => c != '/')).reverse

/-- Embeds `computepb.Instance` as `FetchInstances` reads it: the protobuf `Name`
and `Zone` fields are `*string`, so `none` embeds a nil pointer. -/
structure ComputeInstance where
  Name : Option String
  Zone : Option String
deriving DecidableEq, Repr

/-- Embeds `computepb.InstancesScopedList`, restricted to the `Instances` field
the code reads. -/
structure InstancesScopedList where
  Instances : List ComputeInstance
deriving DecidableEq, Repr

/-- One pair yielded by `it.Next()`: the scope key and the scoped list;
`Value` is a pointer (`nil` embedded as `none`). -/
structure ScopedListPair where
  Key : String
  Value : Option InstancesScopedList
deriving DecidableEq, Repr

/-- How the iterator ends after yielding its pairs: `iterator.Done`, or a
non-nil error from `it.Next()`. -/
inductive IterEnd where
  | done
  | failed (e : String)
deriving DecidableEq, Repr

/-- The loop body for one instance:
`zone := path.Base(*instance.Zone)` then
`Instance{Name: *instance.Name, Zone: zone}`; `none` embeds the nil-pointer
dereference panic. -/
def convertInstance (ci : ComputeInstance) : Option Instance :=
  match ci.Zone, ci.Name with
  | some z, some n => some { Name := n, Zone := pathBase z }
  | _, _ => none

/-- The inner `for _, instance := range pair.Value.Instances` loop:
converts every instance, propagating a nil-pointer panic. -/
def convertAll : List ComputeInstance → Option (List Instance)
  | [] => some []
  | ci :: rest =>
      match convertInstance ci, convertAll rest with
      | some vm, some vms => some (vm :: vms)
      | _, _ => none

/-- The `for { pair, err := it.Next(); ... }` loop of `FetchInstances`,
with `vms` the accumulator (`var vms []Instance`, nil = `[]`):
`iterator.Done` breaks and returns the accumulated records, any other
error returns `nil` and the wrapped error (discarding the accumulator),
and a pair contributes records only when `pair.Value != nil` and
`len(pair.Value.Instances) > 0`. -/
def fetchLoop : List ScopedListPair → IterEnd → List Instance →
    Option (Except String (List Instance))
  | [], .done, vms => some (.ok vms)
  | [], .failed e, _ =>
      some (.error ("failed to iterate over instances: " ++ e))
  | pair :: rest, iend, vms =>
      match pair.Value with
      | some sl =>
          if 0 < sl.Instances.length then
            match convertAll sl.Instances with
            | some items => fetchLoop rest iend (vms ++ items)
            | none => none
          else fetchLoop rest iend vms
      | none => fetchLoop rest iend vms

/-- Embeds `Client.FetchInstances`, as a function of what the aggregated-list
iterator yields: the pairs in iteration order and how iteration ends. -/
def FetchInstances (pages : List ScopedListPair) (iend : IterEnd) :
    Option (Except String (List Instance)) :=
  fetchLoop pages iend []

/-- A page is well formed when all its instances have non-nil `Name` and
`Zone` pointers (a nil pointer would crash `FetchInstances` in Go). -/
def pageOk (p : ScopedListPair) : Bool :=
  match p.Value with
  | none => true
  | some sl => sl.Instances.all (fun ci => ci.Name.isSome && ci.Zone.isSome)

def wellFormed (pages : List ScopedListPair) : Bool :=
  pages.all pageOk

/-- Modelled from the spec's description of the successful result: the
records of one page, each instance contributing its name and the last
path segment of its zone. -/
def pageRecords (p : ScopedListPair) : List Instance :=
  match p.Value with
  | none => []
  | some sl =>
      sl.Instances.map
        (fun ci => { Name := ci.Name.getD "", Zone := pathBase (ci.Zone.getD "") })

/-- The records of all pages in iteration order. -/
def allRecords (pages : List ScopedListPair) : List Instance :=
  (pages.map pageRecords).flatten

lemma allRecords_cons (p : ScopedListPair) (rest : List ScopedListPair) :
    allRecords (p :: rest) = pageRecords p ++ allRecords rest := by
  simp [allRecords]

lemma convertAll_of_ok {l : List ComputeInstance}
    (h : l.all (fun ci => ci.Name.isSome && ci.Zone.isSome) = true) :
    convertAll l =
      some (l.map (fun ci =>
        { Name := ci.Name.getD "", Zone := pathBase (ci.Zone.getD "") })) := by
  induction l with
  | nil => rfl
  | cons a t ih =>
      simp only [List.all_cons, Bool.and_eq_true] at h
      obtain ⟨⟨hn, hz⟩, ht⟩ := h
      obtain ⟨n, hn2⟩ := Option.isSome_iff_exists.mp hn
      obtain ⟨z, hz2⟩ := Option.isSome_iff_exists.mp hz
      simp [convertAll, convertInstance, hn2, hz2, ih ht]

lemma fetchLoop_done (pages : List ScopedListPair) :
    wellFormed pages = true → ∀ acc : List Instance,
      fetchLoop pages .done acc = some (.ok (acc ++ allRecords pages)) := by
  induction pages with
  | nil =>
      intro _ acc
      simp [fetchLoop, allRecords]
  | cons p rest ih =>
      intro hw acc
      simp only [wellFormed, List.all_cons, Bool.and_eq_true] at hw
      obtain ⟨hp, hrest⟩ := hw
      rw [allRecords_cons]
      cases hv : p.Value with
      | none =>
          simp only [fetchLoop, hv]
          rw [ih hrest acc]
          simp [pageRecords, hv]
      | some sl =>
          simp only [fetchLoop, hv]
          rw [pageOk, hv] at hp
          by_cases hlen : 0 < sl.Instances.length
          · simp only [if_pos hlen, convertAll_of_ok hp]
            rw [ih hrest]
            simp [pageRecords, hv, List.append_assoc]
          · rw [if_neg hlen, ih hrest acc]
            have hni : sl.Instances = [] := List.length_eq_zero.mp (by omega)
            simp [pageRecords, hv, hni]

lemma fetchLoop_failed (pages : List ScopedListPair) :
    wellFormed pages = true → ∀ (acc : List Instance) (e : String),
      fetchLoop pages (.failed e) acc =
        some (.error ("failed to iterate over instances: " ++ e)) := by
  induction pages with
  | nil =>
      intro _ acc e
      rfl
  | cons p rest ih =>
      intro hw acc e
      simp only [wellFormed, List.all_cons, Bool.and_eq_true] at hw
      obtain ⟨hp, hrest⟩ := hw
      cases hv : p.Value with
      | none =>
          simp only [fetchLoop, hv]
          exact ih hrest acc e
      | some sl =>
          simp only [fetchLoop, hv]
          rw [pageOk, hv] at hp
          by_cases hlen : 0 < sl.Instances.length
          · rw [if_pos hlen, convertAll_of_ok hp]
            exact ih hrest _ e
          · rw [if_neg hlen]
            exact ih hrest acc e

lemma takeWhile_append_of_all {p : Char → Bool} {xs : List Char} {y : Char}
    {ys : List Char} (hall : ∀ x ∈ xs, p x = true) (hy : p y = false) :
    (xs ++ y :: ys).takeWhile p = xs := by
  induction xs with
  | nil => simp [List.takeWhile_cons, hy]
  | cons a t ih =>
      have ha := hall a (by simp)
      simp [List.takeWhile_cons, ha, ih (fun x hx => hall x (by simp [hx]))]

/-- Applying `path.Base` to a path ending in `"/" ++ seg`, with `seg` a non-empty
slash-free segment, is exactly `seg` — the last path segment. -/
lemma pathBase_last_segment (pre seg : String) (hne : seg ≠ "")
    (hns : ('/' : Char) ∉ seg.toList) :
    pathBase (pre ++ "/" ++ seg) = seg := by
  have hS : seg.data ≠ [] := fun h => hne (String.ext h)
  have hrne : seg.data.reverse ≠ [] := fun h => hS (by simpa using h)
  obtain ⟨c, cs, hcc⟩ := List.exists_cons_of_ne_nil hrne
  have hcmem : c ∈ seg.data := by
    rw [← List.mem_reverse, hcc]
    simp
  have hc : c ≠ '/' := fun h => hns (h ▸ hcmem)
  have hcb : (c == '/') = false := beq_eq_false_iff_ne.mpr hc
  have hdata : (pre ++ "/" ++ seg).data = (pre.data ++ ['/']) ++ seg.data := by
    rw [String.data_append, String.data_append]
  have h0 : (pre ++ "/" ++ seg) ≠ "" := by
    intro h
    have h2 := congrArg String.data h
    rw [hdata] at h2
    simp at h2
  have htl : (pre ++ "/" ++ seg).toList = (pre.data ++ ['/']) ++ seg.data :=
    hdata
  rw [pathBase, if_neg h0, htl]
  rw [List.reverse_append, List.reverse_append, hcc]
  simp only [List.reverse_cons, List.reverse_nil, List.nil_append,
    List.cons_append, List.singleton_append]
  rw [List.dropWhile_cons]
  rw [if_neg (by simp [hc])]
  rw [if_neg (by simp [hc])]
  rw [← List.cons_append]
  rw [takeWhile_append_of_all (p := fun c => c != '/') ?_ (by simp)]
  · rw [← hcc, List.reverse_reverse]
  · intro x hx
    have hxmem : x ∈ seg.data := by
      rw [← List.mem_reverse, hcc]
      exact hx
    simp [bne_iff_ne]
    exact fun h => hns (h ▸ hxmem)

/-- C7. The fetch is atomic: on well-formed pages, an iterator failure
after any number of pages yields `nil` plus the wrapping error (all
accumulated records discarded), and a clean drain yields the records of
all pages in iteration order. -/
theorem fetch_atomic (pages : List ScopedListPair) (e : String)
    (hw : wellFormed pages = true) :
    FetchInstances pages (.failed e) =
      some (.error ("failed to iterate over instances: " ++ e)) ∧
    FetchInstances pages .done = some (.ok (allRecords pages)) := by
  refine ⟨fetchLoop_failed pages hw [] e, ?_⟩
  have h := fetchLoop_done pages hw []
  simpa [FetchInstances] using h

/-- Pages as in the repository's tests: two scoped lists with one instance
each, fully qualified zone URLs. -/
def scPages : List ScopedListPair :=
  [⟨"zones/us-central1-a", some ⟨[⟨some "instance-1",
      some "https://www.googleapis.com/compute/v1/projects/proj/zones/us-central1-a"⟩]⟩⟩,
   ⟨"zones/europe-west1-b", some ⟨[⟨some "instance-2",
      some "https://www.googleapis.com/compute/v1/projects/proj/zones/europe-west1-b"⟩]⟩⟩]

/-- Witness for `fetch_atomic` on the test pages: the failure outcome
discards both accumulated records, the clean drain returns both. -/
theorem fetch_atomic_witness :
    (FetchInstances scPages (.failed "GCP API error") =
      some (.error "failed to iterate over instances: GCP API error") ∧
     FetchInstances scPages .done = some (.ok (allRecords scPages))) ∧
    allRecords scPages =
      [⟨"instance-1", "us-central1-a"⟩, ⟨"instance-2", "europe-west1-b"⟩] := by
  have h := fetch_atomic scPages "GCP API error" (by decide)
  exact ⟨⟨by simpa using h.1, h.2⟩, by decide⟩

/-- C8. Every source instance with name `n` and (possibly fully
qualified) zone `z` contributes the record `{Name := n, Zone :=
pathBase z}` to the fetched inventory, and `pathBase` yields exactly the
last path segment. -/
theorem zone_normalized (pages : List ScopedListPair)
    (hw : wellFormed pages = true) (p : ScopedListPair) (hp : p ∈ pages)
    (sl : InstancesScopedList) (hsl : p.Value = some sl)
    (ci : ComputeInstance) (hci : ci ∈ sl.Instances)
    (n z : String) (hn : ci.Name = some n) (hz : ci.Zone = some z) :
    FetchInstances pages .done = some (.ok (allRecords pages)) ∧
    ({ Name := n, Zone := pathBase z } : Instance) ∈ allRecords pages ∧
    (∀ pre seg, z = pre ++ "/" ++ seg → seg ≠ "" →
      ('/' : Char) ∉ seg.toList → pathBase z = seg) := by
  refine ⟨by simpa [FetchInstances] using fetchLoop_done pages hw [], ?_, ?_⟩
  · unfold allRecords
    rw [List.mem_flatten]
    refine ⟨pageRecords p, List.mem_map_of_mem _ hp, ?_⟩
    simp only [pageRecords, hsl]
    exact List.mem_map.mpr ⟨ci, hci, by simp [hn, hz]⟩
  · intro pre seg hzz hne hns
    rw [hzz]
    exact pathBase_last_segment pre seg hne hns

/-- Witness for `zone_normalized`: Scenario D on the test pages — the URL
zone is cut down to `us-central1-a`. -/
theorem zone_normalized_witness :
    (FetchInstances scPages .done = some (.ok (allRecords scPages)) ∧
      ({ Name := "instance-1", Zone :=
        pathBase "https://www.googleapis.com/compute/v1/projects/proj/zones/us-central1-a" } : Instance)
        ∈ allRecords scPages) ∧
    pathBase "https://www.googleapis.com/compute/v1/projects/proj/zones/us-central1-a" =
      "us-central1-a" := by
  have h := zone_normalized scPages (by decide)
    ⟨"zones/us-central1-a", some ⟨[⟨some "instance-1",
      some "https://www.googleapis.com/compute/v1/projects/proj/zones/us-central1-a"⟩]⟩⟩
    (by decide)
    ⟨[⟨some "instance-1",
      some "https://www.googleapis.com/compute/v1/projects/proj/zones/us-central1-a"⟩]⟩
    rfl
    ⟨some "instance-1",
      some "https://www.googleapis.com/compute/v1/projects/proj/zones/us-central1-a"⟩
    (by decide) "instance-1"
    "https://www.googleapis.com/compute/v1/projects/proj/zones/us-central1-a"
    rfl rfl
  exact ⟨⟨h.1, h.2.1⟩, by decide⟩

/-- A page that contributes nothing: nil `Value` or an empty instance
list. -/
def emptyPage (p : ScopedListPair) : Bool :=
  match p.Value with
  | none => true
  | some sl => sl.Instances.isEmpty

lemma fetchLoop_skip_none {pr : ScopedListPair} (rest : List ScopedListPair)
    (iend : IterEnd) (acc : List Instance) (hv : pr.Value = none) :
    fetchLoop (pr :: rest) iend acc = fetchLoop rest iend acc := by
  simp only [fetchLoop, hv]

lemma fetchLoop_skip_empty {pr : ScopedListPair} (rest : List ScopedListPair)
    (iend : IterEnd) (acc : List Instance) {sl : InstancesScopedList}
    (hv : pr.Value = some sl) (hni : sl.Instances = []) :
    fetchLoop (pr :: rest) iend acc = fetchLoop rest iend acc := by
  simp [fetchLoop, hv, hni]

lemma fetchLoop_all_empty (pages : List ScopedListPair) :
    pages.all emptyPage = true → ∀ acc : List Instance,
      fetchLoop pages .done acc = some (.ok acc) := by
  induction pages with
  | nil =>
      intro _ acc
      rfl
  | cons p rest ih =>
      intro he acc
      simp only [List.all_cons, Bool.and_eq_true] at he
      obtain ⟨hp, hrest⟩ := he
      cases hv : p.Value with
      | none =>
          rw [fetchLoop_skip_none rest .done acc hv]
          exact ih hrest acc
      | some sl =>
          have hni : sl.Instances = [] := by
            simp only [emptyPage, hv] at hp
            exact List.isEmpty_iff.mp hp
          rw [fetchLoop_skip_empty rest .done acc hv hni]
          exact ih hrest acc

/-- C10. Pages with a nil scoped list or no instances are skipped
without an error, and a project whose pages carry no instances at all
produces a successful, empty (`nil`) inventory. -/
theorem fetch_total_on_empty (pages : List ScopedListPair)
    (he : pages.all emptyPage = true) :
    FetchInstances pages .done = some (.ok []) ∧
    (∀ (pr : ScopedListPair) (rest : List ScopedListPair) (iend : IterEnd)
        (acc : List Instance), pr.Value = none →
      fetchLoop (pr :: rest) iend acc = fetchLoop rest iend acc) ∧
    (∀ (pr : ScopedListPair) (rest : List ScopedListPair) (iend : IterEnd)
        (acc : List Instance) (sl : InstancesScopedList),
      pr.Value = some sl → sl.Instances = [] →
      fetchLoop (pr :: rest) iend acc = fetchLoop rest iend acc) :=
  ⟨fetchLoop_all_empty pages he [],
    fun _ rest iend acc hv => fetchLoop_skip_none rest iend acc hv,
    fun _ rest iend acc _ hv hni => fetchLoop_skip_empty rest iend acc hv hni⟩

/-- Two contentless pages: a nil scoped list and an empty instance list. -/
def scEmptyPages : List ScopedListPair :=
  [⟨"zones/us-a", none⟩, ⟨"zones/us-b", some ⟨[]⟩⟩]

/-- Witness for `fetch_total_on_empty` on the contentless pages. -/
theorem fetch_total_on_empty_witness :
    FetchInstances scEmptyPages .done = some (.ok []) ∧
    fetchLoop scEmptyPages .done [] =
      fetchLoop [⟨"zones/us-b", some ⟨[]⟩⟩] .done [] := by
  have h := fetch_total_on_empty scEmptyPages (by decide)
  exact ⟨h.1,
    h.2.1 ⟨"zones/us-a", none⟩ [⟨"zones/us-b", some ⟨[]⟩⟩] .done [] rfl⟩

end Gcp
